import Mathlib

/-!
Verification development for the SimpleRDBMS engine in src/simple_rdbms.py.

The engine stores typed rows in tables, maintains per-column indexes for
primary-key and unique columns, parses a small SQL subset and persists the
whole database as a JSON document.  The definitions below are a shallow
embedding of that code: Python dicts become association lists preserving
insertion order, Python sets of row ids become duplicate-free lists,
machine integers become Int and Python floats become Rat (every float that
appears in the statements below is exactly representable, e.g. 3.5).
Python exceptions become an Except value paired with the table state that
remains after the partial mutations performed before the raise, mirroring
the fact that a raised exception leaves prior in-place mutations visible.
-/

namespace SimpleRDBMS

/-- Runtime values stored in rows.  Mirrors the Python value universe that
the engine actually stores after validation: None, int, float, str, bool.
Floats are modelled as rationals; the source enum member BOOLEAN is
rendered BOOL here. -/
inductive Value where
  | null : Value
  | int (n : Int) : Value
  | real (q : Rat) : Value
  | str (s : String) : Value
  | bool (b : Bool) : Value
deriving DecidableEq, Repr

/-- The DataType enum of src/simple_rdbms.py (member BOOLEAN is rendered
BOOL here to keep the development self-contained). -/
inductive DataType where
  | INTEGER : DataType
  | TEXT : DataType
  | REAL : DataType
  | BOOL : DataType
deriving DecidableEq, Repr

/-- The Column dataclass of src/simple_rdbms.py. -/
structure Column where
  name : String
  data_type : DataType
  primary_key : Bool := false
  unique : Bool := false
  nullable : Bool := true
deriving DecidableEq, Repr

/-- A single quote character, used when the WHERE compiler renders string
values back into expression text. -/
def squote : String := String.singleton (Char.ofNat 39)

/-- Pack a character list back into a string.  The string utilities below
work on character lists with structural recursion (several of the core
String functions recurse on byte positions and are opaque to kernel
reduction, which the concrete evaluations here rely on). -/
def chStr (cs : List Char) : String := String.mk cs

/-- Python str.upper restricted to ASCII, character by character. -/
def upStr (s : String) : String := chStr (s.data.map Char.toUpper)

/-- If the pattern is a front segment of the list, the remainder after
it. -/
def stripFront : List Char → List Char → Option (List Char)
  | [], s => some s
  | _, [] => none
  | p :: ps, c :: cs => if p = c then stripFront ps cs else none

/-- Fuel-driven worker for splitting on a nonempty pattern. -/
def splitOnAux : Nat → List Char → List Char → List Char → List (List Char)
  | 0, s, _, cur => [cur.reverse ++ s]
  | fuel + 1, s, pat, cur =>
    match s with
    | [] => [cur.reverse]
    | c :: cs =>
      match stripFront pat s with
      | some rest => cur.reverse :: splitOnAux fuel rest pat []
      | none => splitOnAux fuel cs pat (c :: cur)

/-- Python s.split(sep) for a nonempty separator (empty parts kept), the
semantics of the splitting the parsers rely on. -/
def splitOnL (pat s : List Char) : List (List Char) :=
  if pat.isEmpty then [s] else splitOnAux (s.length + 1) s pat []

/-- Fuel-driven worker for replacing every occurrence of a pattern. -/
def replaceAux : Nat → List Char → List Char → List Char → List Char
  | 0, s, _, _ => s
  | fuel + 1, s, pat, rep =>
    match s with
    | [] => []
    | c :: cs =>
      match stripFront pat s with
      | some rest => rep ++ replaceAux fuel rest pat rep
      | none => c :: replaceAux fuel cs pat rep

/-- Python s.replace(pat, rep) for a nonempty pattern: every occurrence,
left to right, scanning past each replacement. -/
def replaceStr (s pat rep : String) : String :=
  chStr (replaceAux s.data.length s.data pat.data rep.data)

/-- Split into maximal runs of non-matching characters, dropping empty
runs: Python s.split() when applied with the whitespace predicate. -/
def wordsBy (p : Char → Bool) (cs : List Char) : List (List Char) :=
  (cs.foldr (fun c acc =>
    if p c then [] :: acc
    else
      match acc with
      | [] => [[c]]
      | w :: ws => (c :: w) :: ws) []).filter (fun w => !w.isEmpty)

/-- Join character lists with single spaces. -/
def joinSp : List (List Char) → List Char
  | [] => []
  | [w] => w
  | w :: ws => w ++ ' ' :: joinSp ws

/-- Digits of a decimal numeral folded into a Nat (callers check that
every character is a digit first). -/
def natOfDigits (cs : List Char) : Nat :=
  cs.foldl (fun n c => n * 10 + (c.toNat - 48)) 0

/-- Python int(s) on a string, restricted to the plain decimal fragment the
engine meets (optional sign followed by digits; Python also tolerates
surrounding whitespace and underscores, which never arise here). -/
def parseInt (s : String) : Option Int :=
  match s.data with
  | [] => none
  | c :: cs =>
    let hd : Bool × List Char :=
      if c = '-' then (true, cs)
      else if c = '+' then (false, cs)
      else (false, c :: cs)
    if !hd.2.isEmpty && hd.2.all Char.isDigit then
      some (if hd.1 then -(natOfDigits hd.2 : Int) else (natOfDigits hd.2 : Int))
    else none

/-- Python float(s) on a string, restricted to the plain decimal fragment
the engine meets (optional sign, digits, optional dot and fraction digits;
exponents and inf/nan never arise here). -/
def parseFloat (s : String) : Option Rat :=
  match s.data with
  | [] => none
  | c :: cs =>
    let hd : Bool × List Char :=
      if c = '-' then (true, cs)
      else if c = '+' then (false, cs)
      else (false, c :: cs)
    let mk : Rat → Option Rat := fun q => some (if hd.1 then -q else q)
    match splitOnL [Char.ofNat 46] hd.2 with
    | [a] =>
      if !a.isEmpty && a.all Char.isDigit then mk (natOfDigits a) else none
    | [a, b] =>
      if (!a.isEmpty || !b.isEmpty) && a.all Char.isDigit
          && b.all Char.isDigit then
        mk ((natOfDigits a : Rat) + (natOfDigits b : Rat) / (10 : Rat) ^ b.length)
      else none
    | _ => none

/-- Truncation of a rational toward zero, matching Python int(float). -/
def ratTrunc (q : Rat) : Int := q.num.tdiv q.den

/-- Python truthiness bool(v) of a stored value. -/
def pyTruthy : Value → Bool
  | .null => false
  | .int n => n != 0
  | .real q => q != 0
  | .str s => !s.isEmpty
  | .bool b => b

/-- Python int(v) as used by _validate_row for INTEGER columns: ints pass
through, bools map to 0 and 1, floats truncate toward zero, strings are
parsed or raise ValueError. -/
def pyInt : Value → Except String Int
  | .null => .error "int() argument cannot be None"
  | .int n => .ok n
  | .real q => .ok (ratTrunc q)
  | .str s =>
    match parseInt s with
    | some n => .ok n
    | none => .error "invalid literal for int()"
  | .bool b => .ok (if b then 1 else 0)

/-- Python float(v) as used by _validate_row for REAL columns. -/
def pyFloat : Value → Except String Rat
  | .null => .error "float() argument cannot be None"
  | .int n => .ok (n : Rat)
  | .real q => .ok q
  | .str s =>
    match parseFloat s with
    | some q => .ok q
    | none => .error "could not convert string to float"
  | .bool b => .ok (if b then 1 else 0)

/-- Python str(v) as used by _validate_row for TEXT columns.  Rendering of
a float value is best effort (Python prints a shortest decimal form); no
statement below depends on it. -/
def pyStr : Value → String
  | .null => "None"
  | .int n => toString n
  | .real q => toString q
  | .str s => s
  | .bool b => if b then "True" else "False"

/-- The per-type conversion block of Table._validate_row: INTEGER runs
int(value), REAL runs float(value), TEXT runs str(value), BOOLEAN runs
bool(value).  Only the two numeric conversions can raise. -/
def convertVal : DataType → Value → Except String Value
  | .INTEGER, v => (pyInt v).map Value.int
  | .REAL, v => (pyFloat v).map Value.real
  | .TEXT, v => .ok (.str (pyStr v))
  | .BOOL, v => .ok (.bool (pyTruthy v))

/-- Whether an Except result is ok. -/
def exceptOk {α β : Type} : Except α β → Bool
  | .ok _ => true
  | .error _ => false

/-- Value coercion of a (quote-stripped) token in SQLParser.parse_insert:
NULL, then TRUE and FALSE, then int, then float, else string. -/
def coerceInsertVal (s : String) : Value :=
  if upStr s = "NULL" then .null
  else if upStr s = "TRUE" || upStr s = "FALSE" then
    .bool (upStr s = "TRUE")
  else
    match parseInt s with
    | some n => .int n
    | none =>
      match parseFloat s with
      | some q => .real q
      | none => .str s

/-- Value coercion of a (quote-stripped) token in SQLParser.parse_update:
NULL, then int, then float, else string.  Unlike parse_insert there is no
TRUE and FALSE branch in the source. -/
def coerceUpdateVal (s : String) : Value :=
  if upStr s = "NULL" then .null
  else
    match parseInt s with
    | some n => .int n
    | none =>
      match parseFloat s with
      | some q => .real q
      | none => .str s

/-- A stored row: column name to value, in schema order (a Python dict
preserving insertion order). -/
abbrev Row := List (String × Value)

/-- An input mapping handed to insert or update.  May carry keys outside
the schema and may omit columns. -/
abbrev InputRow := List (String × Value)

/-- row.get(name): the value under a key, or None when absent (Python get
returns None for a missing key, indistinguishable from a stored None). -/
def getVal (row : InputRow) (name : String) : Value :=
  (((row : List (String × Value)).find? (fun p => decide (p.1 = name))).map
    (fun p => p.2)).getD .null

/-- name in row paired with row[name]: some value iff the key is present. -/
def rowVal (row : Row) (name : String) : Option Value :=
  ((row : List (String × Value)).find? (fun p => decide (p.1 = name))).map
    (fun p => p.2)

/-- The Index dataclass: one indexed column and its value to row-id-set
mapping.  Buckets are duplicate-free lists standing for Python sets; the
list of buckets preserves key insertion order like a Python dict. -/
structure Index where
  column : String
  index_map : List (Value × List Nat)
deriving DecidableEq, Repr

/-- The bucket stored under a value, when the value is a key of the map. -/
def Index.find? (idx : Index) (v : Value) : Option (List Nat) :=
  (idx.index_map.find? (fun p => decide (p.1 = v))).map (fun p => p.2)

/-- Index.lookup: the bucket for a value, or an empty set when absent.  In
the source this returns the live set object, so a caller mutating the
result mutates the index; Index.discardAt below models that mutation. -/
def Index.lookup (idx : Index) (v : Value) : List Nat :=
  (idx.find? v).getD []

/-- Index.add: insert a row id into the bucket for a value, creating the
bucket if absent (idempotent when already present). -/
def Index.add (idx : Index) (v : Value) (rid : Nat) : Index :=
  match idx.find? v with
  | none => ⟨idx.column, idx.index_map ++ [(v, [rid])]⟩
  | some bucket =>
    ⟨idx.column, idx.index_map.map (fun p =>
      if p.1 = v then (p.1, if bucket.contains rid then bucket else bucket ++ [rid])
      else p)⟩

/-- Index.remove: discard a row id from the bucket for a value and delete
the bucket entirely when it becomes empty. -/
def Index.remove (idx : Index) (v : Value) (rid : Nat) : Index :=
  match idx.find? v with
  | none => idx
  | some bucket =>
    let b2 := bucket.erase rid
    if b2.isEmpty then
      ⟨idx.column, idx.index_map.filter (fun p => !decide (p.1 = v))⟩
    else
      ⟨idx.column, idx.index_map.map (fun p => if p.1 = v then (p.1, b2) else p)⟩

/-- The effect on an index of existing.discard(row_id) inside
Table._validate_row, where existing is the live set returned by lookup:
when the value is a key of the map its bucket loses the row id in place
(and an empty bucket is NOT pruned, unlike Index.remove); when the value
is not a key, lookup returned a fresh set and nothing changes. -/
def Index.discardAt (idx : Index) (v : Value) (rid : Nat) : Index :=
  match idx.find? v with
  | none => idx
  | some bucket =>
    ⟨idx.column, idx.index_map.map (fun p =>
      if p.1 = v then (p.1, bucket.erase rid) else p)⟩

/-- The Table class: schema in declaration order, rows keyed by row id in
insertion order, the auto-increment counter and the indexes for
primary-key and unique columns. -/
structure Table where
  name : String
  columns : List Column
  rows : List (Nat × Row)
  next_id : Nat
  indexes : List (String × Index)
deriving DecidableEq, Repr

/-- The indexes built by Table.__init__: one empty Index per primary-key
or unique column, in column order. -/
def initIndexes (cols : List Column) : List (String × Index) :=
  cols.filterMap (fun c =>
    if c.primary_key || c.unique then some (c.name, ⟨c.name, []⟩) else none)

/-- Table.__init__. -/
def mkTable (name : String) (cols : List Column) : Table :=
  ⟨name, cols, [], 0, initIndexes cols⟩

/-- The index registered for a column name, if any. -/
def findIdx (idxs : List (String × Index)) (cn : String) : Option Index :=
  (idxs.find? (fun p => decide (p.1 = cn))).map (fun p => p.2)

/-- Replace the index stored under a column name. -/
def setIdx (idxs : List (String × Index)) (cn : String) (idx : Index) :
    List (String × Index) :=
  idxs.map (fun p => if p.1 = cn then (cn, idx) else p)

/-- Table._validate_row, as a fold over the schema columns.  For each
column: a None value passes iff the column is nullable or the primary key;
otherwise the value is converted by type; for unique or primary-key
columns the index is consulted, and when a row id is supplied the check
runs existing.discard(row_id) on the live bucket, mutating the index (the
mutation survives even when a later column raises).  Returns the validated
row together with the index state left behind. -/
def validateCols (row : InputRow) (rid : Option Nat) :
    List Column → List (String × Index) → Row →
    Except String Row × List (String × Index)
  | [], idxs, acc => (.ok acc, idxs)
  | col :: cols, idxs, acc =>
    let value := getVal row col.name
    if value = .null then
      if col.nullable = false && col.primary_key = false then
        (.error ("Column " ++ col.name ++ " cannot be NULL"), idxs)
      else
        validateCols row rid cols idxs (acc ++ [(col.name, .null)])
    else
      match convertVal col.data_type value with
      | .error e => (.error e, idxs)
      | .ok v =>
        if col.unique || col.primary_key then
          match findIdx idxs col.name with
          | some idx =>
            match rid with
            | none =>
              if (idx.lookup v).isEmpty then
                validateCols row rid cols idxs (acc ++ [(col.name, v)])
              else
                (.error ("Duplicate value for unique column " ++ col.name), idxs)
            | some i =>
              let idx2 := idx.discardAt v i
              let existing := (idx.lookup v).erase i
              if existing.isEmpty then
                validateCols row rid cols (setIdx idxs col.name idx2)
                  (acc ++ [(col.name, v)])
              else
                (.error ("Duplicate value for unique column " ++ col.name),
                  setIdx idxs col.name idx2)
          | none => validateCols row rid cols idxs (acc ++ [(col.name, v)])
        else validateCols row rid cols idxs (acc ++ [(col.name, v)])

/-- Table._validate_row at the table level: the validated row, plus the
table as left behind (only its indexes can have been mutated). -/
def validateRow (t : Table) (row : InputRow) (rid : Option Nat) :
    Except String Row × List (String × Index) :=
  validateCols row rid t.columns t.indexes []

/-- Adding a freshly inserted row to every index whose column is non-null
in the validated row (the index-update loop of Table.insert). -/
def addRowIndexes (idxs : List (String × Index)) (validated : Row)
    (rid : Nat) : List (String × Index) :=
  idxs.map (fun p =>
    (p.1, match rowVal validated p.1 with
      | some v => if v = .null then p.2 else p.2.add v rid
      | none => p.2))

/-- Table.insert: validate, store under next_id, advance next_id, then
update the indexes.  A validation error leaves rows and next_id untouched
(the raise happens before any of them is written). -/
def Table.insert (t : Table) (row : InputRow) : Except String Nat × Table :=
  match validateRow t row none with
  | (.error e, idxs) => (.error e, { t with indexes := idxs })
  | (.ok validated, idxs) =>
    let rid := t.next_id
    (.ok rid,
      { t with
        rows := t.rows ++ [(rid, validated)]
        next_id := rid + 1
        indexes := addRowIndexes idxs validated rid })

/-- The merged row {**old_row, **updates} of Table.update: keys of the old
row in order with values overridden by updates, then keys of updates that
are new, in their order. -/
def mergeRow (old : Row) (updates : InputRow) : InputRow :=
  (old : List (String × Value)).map (fun p =>
    (p.1, ((updates.find? (fun q => decide (q.1 = p.1))).map
      (fun q => q.2)).getD p.2))
  ++ updates.filter (fun q => !(old.any (fun p => decide (p.1 = q.1))))

/-- Table.update: fail when the row id is absent, merge, re-validate with
the row id excluded from uniqueness conflicts, then for every indexed
column remove the old value entry and add the new one, and replace the
stored row in place.  A validation error still leaves behind whatever
index mutations the live-set discard performed. -/
def Table.update (t : Table) (rid : Nat) (updates : InputRow) :
    Except String Unit × Table :=
  match t.rows.find? (fun p => decide (p.1 = rid)) with
  | none => (.error ("Row " ++ toString rid ++ " not found"), t)
  | some (_, oldRow) =>
    match validateRow t (mergeRow oldRow updates) (some rid) with
    | (.error e, idxs) => (.error e, { t with indexes := idxs })
    | (.ok validated, idxs) =>
      let idxs2 := idxs.map (fun p =>
        let idx1 := match rowVal oldRow p.1 with
          | some v => if v = .null then p.2 else p.2.remove v rid
          | none => p.2
        (p.1, match rowVal validated p.1 with
          | some v => if v = .null then idx1 else idx1.add v rid
          | none => idx1))
      (.ok (),
        { t with
          rows := t.rows.map (fun p => if p.1 = rid then (rid, validated) else p)
          indexes := idxs2 })

/-- Table.delete: fail when the row id is absent, otherwise drop its index
entries and remove the row. -/
def Table.delete (t : Table) (rid : Nat) : Except String Unit × Table :=
  match t.rows.find? (fun p => decide (p.1 = rid)) with
  | none => (.error ("Row " ++ toString rid ++ " not found"), t)
  | some (_, row) =>
    (.ok (),
      { t with
        rows := t.rows.filter (fun p => !decide (p.1 = rid))
        indexes := t.indexes.map (fun p =>
          (p.1, match rowVal row p.1 with
            | some v => if v = .null then p.2 else p.2.remove v rid
            | none => p.2)) })

/-- Table.select: all (row id, row) pairs in storage order, filtered by
the optional predicate. -/
def Table.select (t : Table) (pred : Option (Row → Bool)) :
    List (Nat × Row) :=
  t.rows.filter (fun p =>
    match pred with
    | none => true
    | some f => f p.2)

/-- The whitespace normalisation applied by every parser entry point:
collapse every run of whitespace to one space and strip the ends
(Python " ".join(sql.split())). -/
def normSpace (s : String) : String :=
  chStr (joinSp (wordsBy Char.isWhitespace s.data))

/-- A word character of the regex class used for table names. -/
def wordChar (c : Char) : Bool := c.isAlphanum || c = '_'

/-- SQLParser.parse_select: the anchored-at-the-start, case-insensitive
pattern SELECT star FROM name, optionally followed by one space, WHERE,
one space and a nonempty condition.  Like re.match, anything after the
matched part (for instance a JOIN clause) is silently ignored. -/
def parseSelect (sql : String) : Except String (String × Option String) :=
  let s := (normSpace sql).data
  if chStr ((s.take 14).map Char.toUpper) = "SELECT * FROM " then
    let rest := s.drop 14
    let name := rest.takeWhile wordChar
    if name.isEmpty then .error "Invalid SELECT syntax"
    else
      let rest2 := rest.drop name.length
      if chStr ((rest2.take 7).map Char.toUpper) = " WHERE "
          && decide (7 < rest2.length) then
        .ok (chStr name, some (chStr (rest2.drop 7)))
      else .ok (chStr name, none)
  else .error "Invalid SELECT syntax"

/-- How the WHERE compiler renders a row value into expression text:
strings get single quotes, everything else is Python str(). -/
def renderVal : Value → String
  | .str s => squote ++ s ++ squote
  | .int n => toString n
  | .bool b => if b then "True" else "False"
  | .null => "None"
  | .real q => toString q

/-- Whether a pattern occurs as a substring (Python: pat in s). -/
def containsSub (s pat : String) : Bool :=
  (splitOnL pat.data s.data).length != 1

/-- The textual substitution loop of SimpleRDBMS._compile_where: for each
column of the row, in order, replace every occurrence of the column name
inside the evolving expression by the rendered value. -/
def substWhere (clause : String) (row : Row) : String :=
  row.foldl (fun expr p =>
    if containsSub expr p.1 then replaceStr expr p.1 (renderVal p.2) else expr)
    clause

/-- A literal of the substituted expression language: True, False, None,
an int, a float, or a single-quoted string; a bare identifier is a Python
NameError, so it yields none. -/
def parseLit (tok : String) : Option Value :=
  if tok = "True" then some (.bool true)
  else if tok = "False" then some (.bool false)
  else if tok = "None" then some .null
  else
    match parseInt tok with
    | some n => some (.int n)
    | none =>
      match parseFloat tok with
      | some q => some (.real q)
      | none =>
        if decide (2 ≤ tok.data.length)
            && decide (tok.data.head? = some (Char.ofNat 39))
            && decide (tok.data.getLast? = some (Char.ofNat 39)) then
          some (.str (chStr ((tok.data.drop 1).dropLast)))
        else none

/-- The numeric view Python uses when comparing across int, float and
bool. -/
def numView : Value → Option Rat
  | .int n => some (n : Rat)
  | .real q => some q
  | .bool b => some (if b then 1 else 0)
  | _ => none

/-- Python equality between two literal values: numeric kinds compare
numerically, strings compare as strings, mismatched kinds are unequal. -/
def pyEq (va vb : Value) : Bool :=
  match numView va, numView vb with
  | some a, some b => decide (a = b)
  | _, _ =>
    match va, vb with
    | .str a, .str b => decide (a = b)
    | .null, .null => true
    | _, _ => false

/-- One Python comparison between two literal values; ordering across
mismatched kinds is a TypeError, modelled as none. -/
def evalPyCmp (op : String) (va vb : Value) : Option Value :=
  if op = "==" then some (.bool (pyEq va vb))
  else if op = "!=" then some (.bool (!pyEq va vb))
  else
    match numView va, numView vb with
    | some a, some b =>
      if op = "<" then some (.bool (decide (a < b)))
      else if op = "<=" then some (.bool (decide (a ≤ b)))
      else if op = ">" then some (.bool (decide (b < a)))
      else if op = ">=" then some (.bool (decide (b ≤ a)))
      else none
    | _, _ =>
      match va, vb with
      | .str a, .str b =>
        if op = "<" then some (.bool (decide (a < b)))
        else if op = "<=" then some (.bool (decide (a ≤ b)))
        else if op = ">" then some (.bool (decide (b < a)))
        else if op = ">=" then some (.bool (decide (b ≤ a)))
        else none
      | _, _ => none

/-- Python eval on the expression fragment reachable from substituted
simple-comparison WHERE clauses: a lone literal, or literal-operator-
literal with a genuine comparison operator.  A single equals sign is
assignment syntax, invalid in an expression, hence a SyntaxError: none.
Any exception is none; _compile_where turns none into False. -/
def evalPy (e : String) : Option Value :=
  match ((splitOnL [' '] e.data).map chStr).filter (fun tok => !tok.isEmpty) with
  | [a] => parseLit a
  | [a, op, b] =>
    if op = "==" || op = "!=" || op = "<" || op = "<=" || op = ">"
        || op = ">=" then do
      let va ← parseLit a
      let vb ← parseLit b
      evalPyCmp op va vb
    else none
  | _ => none

/-- SimpleRDBMS._compile_where: substitute row values into the clause text
and evaluate; any exception makes the predicate return False, and a
non-boolean result counts by its truthiness. -/
def compileWhere (clause : String) : Row → Bool := fun row =>
  match evalPy (substWhere clause row) with
  | some v => pyTruthy v
  | none => false

/-- Database.get_table. -/
def getTable (db : List (String × Table)) (name : String) :
    Except String Table :=
  match db.find? (fun p => decide (p.1 = name)) with
  | some p => .ok p.2
  | none => .error ("Table " ++ name ++ " does not exist")

/-- The SELECT branch of SimpleRDBMS.execute: parse, fetch the table,
compile the optional WHERE clause and run Table.select. -/
def execSelect (db : List (String × Table)) (sql : String) :
    Except String (List (Nat × Row)) := do
  let (name, wc) ← parseSelect sql
  let t ← getTable db name
  match wc with
  | some clause => pure (Table.select t (some (compileWhere clause)))
  | none => pure (Table.select t none)

/-- The per-table JSON document written by Database.save: the column
definitions, the rows keyed by row id, and next_id.  The JSON layer is
modelled as the identity: every stored value kind (None, int, float, str,
bool) round-trips through json.dump and json.load unchanged, and the row
keys, written as decimal strings by str() and read back with int(), are
kept as naturals here since decimal printing and parsing are mutually
inverse on them. -/
structure SavedTable where
  columns : List Column
  rows : List (Nat × Row)
  next_id : Nat
deriving DecidableEq, Repr

/-- The serialisation of one table inside Database.save. -/
def saveTable (t : Table) : SavedTable := ⟨t.columns, t.rows, t.next_id⟩

/-- The index-rebuild scan of Database.load: starting from the empty
indexes of Table.__init__, walk the restored rows in file order and add
every non-null indexed value. -/
def rebuildIndexes (cols : List Column) (rows : List (Nat × Row)) :
    List (String × Index) :=
  rows.foldl (fun idxs p =>
    idxs.map (fun q =>
      (q.1, match rowVal p.2 q.1 with
        | some v => if v = .null then q.2 else q.2.add v p.1
        | none => q.2))) (initIndexes cols)

/-- The reconstruction of one table inside Database.load: rebuild the
Table from its saved schema, restore rows and next_id, and rebuild every
index by scanning the restored rows. -/
def loadTable (name : String) (s : SavedTable) : Table :=
  ⟨name, s.columns, s.rows, s.next_id, rebuildIndexes s.columns s.rows⟩

/-- Database.save over the table map, in iteration order. -/
def saveDB (db : List (String × Table)) : List (String × SavedTable) :=
  db.map (fun p => (p.1, saveTable p.2))

/-- Database.load over the saved document, in file order. -/
def loadDB (d : List (String × SavedTable)) : List (String × Table) :=
  d.map (fun p => (p.1, loadTable p.1 p.2))

/-- A public mutating operation on one table, for reasoning about
operation sequences. -/
inductive Op where
  | ins (r : InputRow) : Op
  | upd (rid : Nat) (u : InputRow) : Op
  | del (rid : Nat) : Op

/-- Run one operation: the row id issued (for a successful insert) and
the resulting table. -/
def applyOp (t : Table) : Op → Option Nat × Table
  | .ins r =>
    match Table.insert t r with
    | (.ok rid, t2) => (some rid, t2)
    | (.error _, t2) => (none, t2)
  | .upd rid u => (none, (Table.update t rid u).2)
  | .del rid => (none, (Table.delete t rid).2)

/-- The table after a sequence of operations. -/
def runTable (t : Table) : List Op → Table
  | [] => t
  | op :: ops => runTable (applyOp t op).2 ops

/-- The row ids issued along a sequence of operations, in order. -/
def runIssued (t : Table) : List Op → List Nat
  | [] => []
  | op :: ops =>
    match applyOp t op with
    | (some rid, t2) => rid :: runIssued t2 ops
    | (none, t2) => runIssued t2 ops

/-- Completeness direction of the index invariant: every stored non-null
value of an indexed column is found in that index under the row id. -/
def indexComplete (t : Table) : Bool :=
  t.rows.all (fun p =>
    t.indexes.all (fun q =>
      decide ((rowVal p.2 q.1).getD Value.null = Value.null)
        || (q.2.lookup ((rowVal p.2 q.1).getD Value.null)).contains p.1))

/-- A plain nullable INTEGER column. -/
def colInt (nm : String) : Column := ⟨nm, .INTEGER, false, false, true⟩

/-- A nullable INTEGER column carrying a UNIQUE constraint. -/
def colUniq (nm : String) : Column := ⟨nm, .INTEGER, false, true, true⟩

/-- The table state after an insert, discarding the status. -/
def insRes (t : Table) (r : InputRow) : Table := (Table.insert t r).2

/-- A table whose schema is a single INTEGER PRIMARY KEY column, as CREATE
TABLE t (id INTEGER PRIMARY KEY) produces it. -/
def tPK : Table := mkTable "t" [⟨"id", .INTEGER, true, false, true⟩]

/-- A table with one plain INTEGER column. -/
def tInt : Table := mkTable "t" [colInt "a"]

/-- The table t with rows of priority 1, 2 and 3, in that insertion
order. -/
def tPr : Table :=
  insRes (insRes (insRes (mkTable "t" [colInt "priority"])
    [("priority", .int 1)]) [("priority", .int 2)]) [("priority", .int 3)]

/-- A database holding only tPr under name t. -/
def db1 : List (String × Table) := [("t", tPr)]

/-- T1(id, a) with the single row (1, x). -/
def tT1 : Table :=
  insRes (mkTable "T1" [colInt "id", ⟨"a", .TEXT, false, false, true⟩])
    [("id", .int 1), ("a", .str "x")]

/-- T2(id, t1_id) with rows (10, 1) and (11, 2). -/
def tT2 : Table :=
  insRes (insRes (mkTable "T2" [colInt "id", colInt "t1_id"])
    [("id", .int 10), ("t1_id", .int 1)]) [("id", .int 11), ("t1_id", .int 2)]

/-- The two-table database of the join scenario. -/
def db3 : List (String × Table) := [("T1", tT1), ("T2", tT2)]

/-- A table with two UNIQUE INTEGER columns a and b holding rows
(a 1, b 10) and (a 2, b 20). -/
def tAB : Table :=
  insRes (insRes (mkTable "t" [colUniq "a", colUniq "b"])
    [("a", .int 1), ("b", .int 10)]) [("a", .int 2), ("b", .int 20)]

/-- A table with one UNIQUE TEXT column holding the single value a. -/
def tU : Table :=
  insRes (mkTable "t" [⟨"name", .TEXT, false, true, true⟩])
    [("name", .str "a")]

/-- An input mapping with every entry whose key is not a schema column
stripped out.  Both insert and update treat an input exactly like its
restriction to schema keys, since _validate_row reads the input only via
row.get on schema column names. -/
def keepSchema (t : Table) (r : InputRow) : InputRow :=
  r.filter (fun p => t.columns.any (fun c => decide (c.name = p.1)))

/-- Whether a value already has the host representation of the declared
type (null counts for every type).  Every value _validate_row stores
satisfies this, and on such values the per-type conversion is the
identity. -/
def typedVal : DataType → Value → Bool
  | _, .null => true
  | .INTEGER, .int _ => true
  | .REAL, .real _ => true
  | .TEXT, .str _ => true
  | .BOOL, .bool _ => true
  | _, _ => false

/-- A table with two plain nullable INTEGER columns a and b holding the
single row (a 1, b 2). -/
def tNB : Table :=
  insRes (mkTable "t" [colInt "a", colInt "b"]) [("a", .int 1), ("b", .int 2)]

/-- Validation without a row id (the insert path) never touches the
indexes: the live-set discard only runs when a row id is supplied. -/
theorem validateCols_none_idxs (row : InputRow) :
    ∀ (cols : List Column) (idxs : List (String × Index)) (acc : Row),
      (validateCols row none cols idxs acc).2 = idxs := by
  intro cols
  induction cols with
  | nil => intro idxs acc; rfl
  | cons col cols ih =>
    intro idxs acc
    unfold validateCols
    dsimp only
    split
    · split
      · rfl
      · exact ih idxs _
    · split
      · rfl
      · split
        · split
          · split
            · exact ih idxs _
            · rfl
          · exact ih idxs _
        · exact ih idxs _

/-- Shape of Table.insert: either it fails and returns the table
unchanged, or validation succeeded and it stores the validated row under
next_id and advances next_id by one. -/
theorem insert_cases (t : Table) (r : InputRow) :
    (∃ e, Table.insert t r = (.error e, t)) ∨
    (∃ validated idxs,
      validateRow t r none = (.ok validated, idxs) ∧
      Table.insert t r = (.ok t.next_id,
        { t with
          rows := t.rows ++ [(t.next_id, validated)]
          next_id := t.next_id + 1
          indexes := addRowIndexes idxs validated t.next_id })) := by
  have hidxs : (validateRow t r none).2 = t.indexes :=
    validateCols_none_idxs r t.columns t.indexes []
  unfold Table.insert
  rcases hv : validateRow t r none with ⟨res, idxs⟩
  rw [hv] at hidxs
  dsimp only at hidxs
  cases res with
  | error e =>
    left
    subst hidxs
    exact ⟨e, rfl⟩
  | ok validated =>
    right
    exact ⟨validated, idxs, rfl, rfl⟩

/-- A successful insert issues exactly the current next_id and bumps the
counter by one, whatever the input row contains. -/
theorem insert_ok_next (t : Table) (r : InputRow) (rid : Nat)
    (h : (Table.insert t r).1 = .ok rid) :
    rid = t.next_id ∧ (Table.insert t r).2.next_id = t.next_id + 1 := by
  rcases insert_cases t r with ⟨e, he⟩ | ⟨validated, idxs, _, hok⟩
  · rw [he] at h; cases h
  · rw [hok] at h ⊢
    simp only [Except.ok.injEq] at h
    exact ⟨h.symm, rfl⟩

/-- A failed insert leaves the table exactly as it was. -/
theorem insert_error_state (t : Table) (r : InputRow)
    (h : exceptOk (Table.insert t r).1 = false) :
    (Table.insert t r).2 = t := by
  rcases insert_cases t r with ⟨e, he⟩ | ⟨validated, idxs, _, hok⟩
  · rw [he]
  · rw [hok] at h; cases h

/-- C2, counterexample: on a table whose schema is id INTEGER PRIMARY KEY
with next_id 0, an insert that omits the column succeeds but stores null
in the id column (not next_id = 0 as claimed), and an insert that
explicitly supplies id 5 leaves next_id at 1 (not 5 + 1 = 6 as
claimed). -/
theorem c2_counterexample :
    (Table.insert tPK []).1 = .ok 0 ∧
    (Table.insert tPK []).2.rows = [(0, [("id", Value.null)])] ∧
    (Table.insert tPK [("id", Value.int 5)]).1 = .ok 0 ∧
    (Table.insert tPK [("id", Value.int 5)]).2.next_id = 1 :=
  ⟨rfl, rfl, rfl, rfl⟩

/-- C2, amended: every successful insert issues the row id next_id and
advances next_id by exactly one; the primary-key column itself receives
no auto-assigned value (it stores the validated input value, null when
omitted) and an explicitly supplied primary-key value never advances
next_id any further. -/
theorem c2_amended (t : Table) (r : InputRow) (rid : Nat)
    (h : (Table.insert t r).1 = .ok rid) :
    rid = t.next_id ∧ (Table.insert t r).2.next_id = t.next_id + 1 :=
  insert_ok_next t r rid h

/-- Witness for c2_amended at the concrete primary-key table. -/
theorem c2_amended_witness :
    0 = tPK.next_id ∧ (Table.insert tPK []).2.next_id = tPK.next_id + 1 :=
  c2_amended tPK [] 0 rfl

/-- C7, counterexample: a float value supplied for an INTEGER column is
silently truncated and stored, not rejected with a TypeMismatch:
inserting a 3.5 into the INTEGER column a succeeds and stores 3. -/
theorem c7_counterexample :
    (Table.insert tInt [("a", Value.real (Rat.mk' 7 2))]).1 = .ok 0 ∧
    (Table.insert tInt [("a", Value.real (Rat.mk' 7 2))]).2.rows
      = [(0, [("a", Value.int 3)])] :=
  ⟨rfl, rfl⟩

/-- C7, amended: non-null values are coerced by the host conversions
rather than type-checked: TEXT and BOOLEAN columns accept every value,
INTEGER and REAL columns accept every non-string value (bools become 0 or
1, floats truncate toward zero on INTEGER), and the only failing case is
a string that does not parse as the required numeric type.  In
particular a REAL column accepts integer values, as the claim said. -/
theorem c7_amended (dt : DataType) (v : Value) (hv : v ≠ .null) :
    (exceptOk (convertVal dt v) = false ↔
      ∃ s, v = .str s ∧
        ((dt = .INTEGER ∧ parseInt s = none) ∨
          (dt = .REAL ∧ parseFloat s = none))) ∧
    (∀ n : Int, convertVal .REAL (.int n) = .ok (.real (n : Rat))) := by
  constructor
  · cases dt <;> cases v <;>
      simp_all [convertVal, pyInt, pyFloat, exceptOk, Except.map] <;>
      first
        | (rename_i s; cases hp : parseInt s <;> simp [hp, exceptOk])
        | (rename_i s; cases hp : parseFloat s <;> simp [hp, exceptOk])
  · intro n; rfl

/-- Witness for c7_amended at the value int 3. -/
theorem c7_amended_witness :
    (exceptOk (convertVal .INTEGER (.int 3)) = false ↔
      ∃ s, Value.int 3 = .str s ∧
        ((DataType.INTEGER = .INTEGER ∧ parseInt s = none) ∨
          (DataType.INTEGER = .REAL ∧ parseFloat s = none))) ∧
    (∀ n : Int, convertVal .REAL (.int n) = .ok (.real (n : Rat))) :=
  c7_amended .INTEGER (.int 3) (by decide)

/-- C8, counterexample: the INSERT coercion turns the token TRUE into the
boolean true, but the UPDATE coercion has no boolean branch and leaves it
as the string TRUE. -/
theorem c8_counterexample :
    coerceInsertVal "TRUE" = Value.bool true ∧
    coerceUpdateVal "TRUE" = Value.str "TRUE" :=
  ⟨rfl, rfl⟩

/-- C8, amended: the two coercions agree on every token except the
boolean literals: whenever the token does not spell TRUE or FALSE
case-insensitively, UPDATE coerces it exactly as INSERT does (NULL, then
integer, then float, then string); on TRUE and FALSE they differ, UPDATE
keeping the plain string. -/
theorem c8_amended (s : String) (h1 : upStr s ≠ "TRUE")
    (h2 : upStr s ≠ "FALSE") :
    coerceUpdateVal s = coerceInsertVal s := by
  unfold coerceInsertVal coerceUpdateVal
  simp [h1, h2]

/-- Witness for c8_amended at the token 42. -/
theorem c8_amended_witness : coerceUpdateVal "42" = coerceInsertVal "42" :=
  c8_amended "42" (by decide) (by decide)

/-- When the input supplies, for some unique column, a convertible
non-null value whose bucket in that column's index is nonempty, insert-
style validation (no row id) fails, whichever column errors first. -/
theorem validateCols_dup (row : InputRow) (c : Column) (v : Value)
    (hu : c.unique = true)
    (hnn : ¬ getVal row c.name = Value.null)
    (hconv : convertVal c.data_type (getVal row c.name) = .ok v) :
    ∀ (cols : List Column), c ∈ cols →
      ∀ (idxs : List (String × Index)) (idx : Index) (acc : Row),
        findIdx idxs c.name = some idx → (idx.lookup v).isEmpty = false →
        exceptOk (validateCols row none cols idxs acc).1 = false := by
  intro cols
  induction cols with
  | nil => intro h; cases h
  | cons col cols ih =>
    intro hmem idxs idx acc hfind hne
    rcases List.mem_cons.mp hmem with heq | htail
    · subst heq
      simp only [validateCols]
      split
      · rename_i hx; exact absurd hx hnn
      · split
        · rename_i e hx
          rw [hconv] at hx; cases hx
        · rename_i v2 hx
          rw [hconv] at hx
          injection hx with hv2
          subst hv2
          split
          · split
            · rename_i idx2 hf2
              rw [hfind] at hf2
              injection hf2 with hidx2
              subst hidx2
              split
              · rename_i hemp
                rw [hne] at hemp; cases hemp
              · simp [exceptOk]
            · rename_i hf2
              rw [hfind] at hf2; cases hf2
          · rename_i hor
            rw [hu] at hor
            simp at hor
    · simp only [validateCols]
      split
      · split
        · simp [exceptOk]
        · exact ih htail idxs idx _ hfind hne
      · split
        · simp [exceptOk]
        · split
          · split
            · split
              · exact ih htail idxs idx _ hfind hne
              · simp [exceptOk]
            · exact ih htail idxs idx _ hfind hne
          · exact ih htail idxs idx _ hfind hne

/-- Validation reads the input row only through the schema columns: two
inputs agreeing on every schema column validate identically. -/
theorem validateCols_congr (r r' : InputRow) (rid : Option Nat) :
    ∀ (cols : List Column),
      (∀ c ∈ cols, getVal r c.name = getVal r' c.name) →
      ∀ (idxs : List (String × Index)) (acc : Row),
        validateCols r rid cols idxs acc = validateCols r' rid cols idxs acc := by
  intro cols
  induction cols with
  | nil => intro _ idxs acc; rfl
  | cons col cols ih =>
    intro h idxs acc
    have hhead : getVal r col.name = getVal r' col.name :=
      h col (List.mem_cons_self col cols)
    have htail : ∀ c ∈ cols, getVal r c.name = getVal r' c.name :=
      fun c hc => h c (List.mem_cons_of_mem col hc)
    simp only [validateCols, hhead, ih htail]

/-- A successful validation extends the accumulator with exactly one entry
per schema column, in schema order, storing null for every column the
input left null. -/
theorem validateCols_ok_shape (row : InputRow) (rid : Option Nat) :
    ∀ (cols : List Column) (idxs : List (String × Index)) (acc res : Row)
      (idxs' : List (String × Index)),
      validateCols row rid cols idxs acc = (.ok res, idxs') →
      ∃ tail, res = acc ++ tail ∧
        tail.map Prod.fst = cols.map Column.name ∧
        ∀ c ∈ cols, getVal row c.name = Value.null → (c.name, Value.null) ∈ tail := by
  intro cols
  induction cols with
  | nil =>
    intro idxs acc res idxs' h
    simp only [validateCols, Prod.mk.injEq, Except.ok.injEq] at h
    exact ⟨[], by simp [h.1], by simp, by simp⟩
  | cons col cols ih =>
    intro idxs acc res idxs' h
    simp only [validateCols] at h
    have step :
        ∀ x (idxs2 : List (String × Index)),
          validateCols row rid cols idxs2 (acc ++ [(col.name, x)]) = (.ok res, idxs') →
          (getVal row col.name = Value.null → x = Value.null) →
          ∃ tail, res = acc ++ tail ∧
            tail.map Prod.fst = (col :: cols).map Column.name ∧
            ∀ c ∈ col :: cols, getVal row c.name = Value.null →
              (c.name, Value.null) ∈ tail := by
      intro x idxs2 hrec hx
      obtain ⟨tail, ht1, ht2, ht3⟩ := ih idxs2 (acc ++ [(col.name, x)]) res idxs' hrec
      refine ⟨(col.name, x) :: tail, ?_, ?_, ?_⟩
      · simpa [List.append_assoc] using ht1
      · simp [ht2]
      · intro c hc hcnull
        rcases List.mem_cons.mp hc with rfl | hc2
        · rw [hx hcnull]; exact List.mem_cons_self _ _
        · exact List.mem_cons_of_mem _ (ht3 c hc2 hcnull)
    revert h
    split
    · split
      · intro h; cases h
      · intro h
        exact step Value.null idxs h (fun _ => rfl)
    · rename_i hnnull
      split
      · intro h; cases h
      · rename_i v hconv
        have hxv : getVal row col.name = Value.null → v = Value.null :=
          fun hc => absurd hc hnnull
        split
        · split
          · split
            · split
              · intro h; exact step v _ h hxv
              · intro h; cases h
            · split
              · intro h; exact step v _ h hxv
              · intro h; cases h
          · intro h; exact step v _ h hxv
        · intro h; exact step v _ h hxv

/-- C6: inserting a row whose value in a UNIQUE column duplicates a value
already held by a stored row fails, and the failed insert leaves the
table completely unchanged: same rows, same next_id, same indexes. -/
theorem c6_unique_insert (t : Table) (r : InputRow) (c : Column)
    (idx : Index) (rid0 : Nat) (row0 : Row) (v : Value)
    (hwf : indexComplete t = true)
    (hc : c ∈ t.columns) (hu : c.unique = true)
    (hidx : findIdx t.indexes c.name = some idx)
    (hrow : (rid0, row0) ∈ t.rows)
    (hval : rowVal row0 c.name = some v) (hvn : v ≠ .null)
    (hin : ¬ getVal r c.name = Value.null)
    (hconv : convertVal c.data_type (getVal r c.name) = .ok v) :
    exceptOk (Table.insert t r).1 = false ∧ (Table.insert t r).2 = t := by
  have hmemidx : (c.name, idx) ∈ t.indexes := by
    unfold findIdx at hidx
    rcases hf : t.indexes.find? (fun p => decide (p.1 = c.name)) with _ | pr
    · rw [hf] at hidx; cases hidx
    · rw [hf] at hidx
      have hp1 : pr.1 = c.name := by
        have := List.find?_some hf
        simpa using this
      have hp2 : pr.2 = idx := by simpa using hidx
      have := List.mem_of_find?_eq_some hf
      rw [← hp1, ← hp2]
      simpa using this
  have hlook : (idx.lookup v).contains rid0 = true := by
    unfold indexComplete at hwf
    rw [List.all_eq_true] at hwf
    have h1 := hwf (rid0, row0) hrow
    rw [List.all_eq_true] at h1
    have h2 := h1 (c.name, idx) hmemidx
    dsimp only at h2
    rw [hval] at h2
    simp only [Option.getD_some] at h2
    rcases Bool.or_eq_true_iff.mp h2 with hbad | hgood
    · exact absurd (of_decide_eq_true hbad) hvn
    · exact hgood
  have hne : (idx.lookup v).isEmpty = false := by
    cases hl : idx.lookup v with
    | nil => rw [hl] at hlook; cases hlook
    | cons a l => rfl
  have herr : exceptOk (validateRow t r none).1 = false :=
    validateCols_dup r c v hu hin hconv t.columns hc t.indexes idx [] hidx hne
  rcases insert_cases t r with ⟨e, he⟩ | ⟨validated, idxs, hv2, hins⟩
  · rw [he]
    exact ⟨rfl, rfl⟩
  · rw [hv2] at herr
    cases herr

/-- Witness for c6_unique_insert: inserting a second row with the
duplicate TEXT value a into the unique name column of tU. -/
theorem c6_unique_insert_witness :
    exceptOk (Table.insert tU [("name", Value.str "a")]).1 = false ∧
    (Table.insert tU [("name", Value.str "a")]).2 = tU :=
  c6_unique_insert tU [("name", Value.str "a")]
    ⟨"name", .TEXT, false, true, true⟩ ⟨"name", [(Value.str "a", [0])]⟩
    0 [("name", Value.str "a")] (Value.str "a")
    (by decide) (by decide) (by decide) (by decide) (by decide)
    (by decide) (by decide) (by decide) rfl

/-- find? over a key-preserving value-rewriting map depends, at a fixed
key, only on the value function at that key. -/
theorem find?_map_keyVal (nm : String) (F G : String × Value → Value)
    (h : ∀ p : String × Value, p.1 = nm → F p = G p) :
    ∀ old : Row,
      (old.map (fun p => (p.1, F p))).find? (fun q => decide (q.1 = nm)) =
      (old.map (fun p => (p.1, G p))).find? (fun q => decide (q.1 = nm)) := by
  intro old
  induction old with
  | nil => rfl
  | cons p old ih =>
    by_cases hp : p.1 = nm
    · simp [List.find?, hp, h p hp]
    · simp [List.find?, hp, ih]

/-- find? at a fixed key is unchanged by filters that agree on every
entry carrying that key. -/
theorem find?_filter_agree (nm : String) (f g : String × Value → Bool)
    (h : ∀ p : String × Value, p.1 = nm → f p = g p) :
    ∀ u : InputRow,
      (u.filter f).find? (fun p => decide (p.1 = nm)) =
      (u.filter g).find? (fun p => decide (p.1 = nm)) := by
  intro u
  induction u with
  | nil => rfl
  | cons p u ih =>
    by_cases hp : p.1 = nm
    · have hfg := h p hp
      cases hf2 : f p
      · have hg2 : g p = false := by rw [← hfg]; exact hf2
        simp [List.filter_cons, hf2, hg2, ih]
      · have hg2 : g p = true := by rw [← hfg]; exact hf2
        simp [List.filter_cons, hf2, hg2, List.find?, hp]
    · cases hf2 : f p <;> cases hg2 : g p <;>
        simp [List.filter_cons, hf2, hg2, List.find?, hp, ih]

/-- The schema-key filter keeps every entry whose key is a schema column
name. -/
theorem keep_at_schema (t : Table) (c : Column) (hc : c ∈ t.columns) :
    ∀ p : String × Value, p.1 = c.name →
      (t.columns.any (fun d => decide (d.name = p.1))) = true := by
  intro p hp
  rw [List.any_eq_true]
  exact ⟨c, hc, by simp [hp]⟩

/-- Lookup at a schema column name is unchanged by stripping non-schema
entries. -/
theorem find?_keep_eq (t : Table) (u : InputRow) (c : Column)
    (hc : c ∈ t.columns) :
    (keepSchema t u).find? (fun p => decide (p.1 = c.name)) =
      u.find? (fun p => decide (p.1 = c.name)) := by
  have h := find?_filter_agree c.name
    (fun p => t.columns.any (fun d => decide (d.name = p.1))) (fun _ => true)
    (fun p hp => by simpa using keep_at_schema t c hc p hp) u
  simpa [keepSchema] using h

/-- The value an input supplies at a schema column is unchanged by
stripping non-schema entries. -/
theorem getVal_keepSchema (t : Table) (r : InputRow) (c : Column)
    (hc : c ∈ t.columns) :
    getVal (keepSchema t r) c.name = getVal r c.name := by
  unfold getVal
  rw [find?_keep_eq t r c hc]

/-- An insert reads only the schema columns of its input: stripping the
non-schema entries changes nothing about its outcome. -/
theorem insert_keep (t : Table) (r : InputRow) :
    Table.insert t r = Table.insert t (keepSchema t r) := by
  unfold Table.insert validateRow
  rw [validateCols_congr r (keepSchema t r) none t.columns
    (fun c hc => (getVal_keepSchema t r c hc).symm) t.indexes []]

/-- A successful insert stores a row holding exactly the schema's column
names, with null wherever the input supplied null or nothing. -/
theorem insert_ok_rowshape (t : Table) (r : InputRow) (rid : Nat)
    (hok : (Table.insert t r).1 = .ok rid) :
    ∃ row, (rid, row) ∈ (Table.insert t r).2.rows ∧
      row.map Prod.fst = t.columns.map Column.name ∧
      ∀ c ∈ t.columns, getVal r c.name = Value.null →
        (c.name, Value.null) ∈ row := by
  rcases insert_cases t r with ⟨e, he⟩ | ⟨validated, idxs, hv2, hins⟩
  · rw [he] at hok; cases hok
  · rw [hins] at hok
    have hrid : rid = t.next_id := by
      simpa using hok.symm
    subst hrid
    obtain ⟨tail, ht1, ht2, ht3⟩ :=
      validateCols_ok_shape r none t.columns t.indexes [] validated idxs hv2
    rw [hins]
    refine ⟨validated, by simp, ?_, ?_⟩
    · rw [ht1]; simpa using ht2
    · intro c hcmem hcnull
      rw [ht1]
      simpa using ht3 c hcmem hcnull

/-- Table.update never touches next_id, in any of its outcomes. -/
theorem update_next_id (t : Table) (rid : Nat) (u : InputRow) :
    (Table.update t rid u).2.next_id = t.next_id := by
  unfold Table.update
  split
  · rfl
  · split
    · rfl
    · rfl

/-- Table.delete never touches next_id, in any of its outcomes. -/
theorem delete_next_id (t : Table) (rid : Nat) :
    (Table.delete t rid).2.next_id = t.next_id := by
  unfold Table.delete
  split
  · rfl
  · rfl

/-- No operation ever decreases next_id. -/
theorem applyOp_next_le (t : Table) (op : Op) :
    t.next_id ≤ ((applyOp t op).2).next_id := by
  cases op with
  | ins r =>
    rcases insert_cases t r with ⟨e, he⟩ | ⟨validated, idxs, hv2, hins⟩
    · simp [applyOp, he]
    · simp [applyOp, hins]
  | upd rid u => simp [applyOp, update_next_id]
  | del rid => simp [applyOp, delete_next_id]

/-- The only operation that issues a row id is a successful insert, which
issues exactly next_id and bumps the counter past it. -/
theorem applyOp_issued (t : Table) (op : Op) (i : Nat)
    (h : (applyOp t op).1 = some i) :
    i = t.next_id ∧ ((applyOp t op).2).next_id = t.next_id + 1 := by
  cases op with
  | ins r =>
    rcases insert_cases t r with ⟨e, he⟩ | ⟨validated, idxs, hv2, hins⟩
    · simp [applyOp, he] at h
    · simp [applyOp, hins] at h
      simp [applyOp, hins, h]
  | upd rid u => simp [applyOp] at h
  | del rid => simp [applyOp] at h

/-- Every row id issued along a trace is at least the starting next_id. -/
theorem runIssued_ge (t : Table) (ops : List Op) :
    ∀ i ∈ runIssued t ops, t.next_id ≤ i := by
  induction ops generalizing t with
  | nil => intro i h; simp [runIssued] at h
  | cons op ops ih =>
    intro i h
    rcases ha : applyOp t op with ⟨iss, t2⟩
    have hle : t.next_id ≤ t2.next_id := by
      have h2 := applyOp_next_le t op
      rw [ha] at h2
      exact h2
    cases iss with
    | none =>
      simp only [runIssued, ha] at h
      exact le_trans hle (ih t2 i h)
    | some rid =>
      simp only [runIssued, ha] at h
      rcases List.mem_cons.mp h with rfl | h2
      · have hsp := applyOp_issued t op i (by rw [ha])
        exact le_of_eq hsp.1.symm
      · exact le_trans hle (ih t2 i h2)

/-- next_id never decreases across a trace. -/
theorem runTable_next_ge (t : Table) (ops : List Op) :
    t.next_id ≤ (runTable t ops).next_id := by
  induction ops generalizing t with
  | nil => exact le_refl _
  | cons op ops ih =>
    rw [runTable]
    exact le_trans (applyOp_next_le t op) (ih _)

/-- Every issued row id stays strictly below the final next_id. -/
theorem runIssued_lt_next (t : Table) (ops : List Op) :
    ∀ i ∈ runIssued t ops, i < (runTable t ops).next_id := by
  induction ops generalizing t with
  | nil => intro i h; simp [runIssued] at h
  | cons op ops ih =>
    intro i h
    rcases ha : applyOp t op with ⟨iss, t2⟩
    have hrt : runTable t (op :: ops) = runTable t2 ops := by
      rw [runTable, ha]
    rw [hrt]
    cases iss with
    | none =>
      simp only [runIssued, ha] at h
      exact ih t2 i h
    | some rid =>
      simp only [runIssued, ha] at h
      rcases List.mem_cons.mp h with rfl | h2
      · have hsp := applyOp_issued t op i (by rw [ha])
        have h3 : t2.next_id = t.next_id + 1 := by
          have := hsp.2; rw [ha] at this; exact this
        calc i = t.next_id := hsp.1
          _ < t2.next_id := by omega
          _ ≤ (runTable t2 ops).next_id := runTable_next_ge t2 ops
      · exact ih t2 i h2

/-- Issued row ids are strictly increasing along any trace. -/
theorem runIssued_pairwise (t : Table) (ops : List Op) :
    (runIssued t ops).Pairwise (· < ·) := by
  induction ops generalizing t with
  | nil => simp [runIssued]
  | cons op ops ih =>
    rcases ha : applyOp t op with ⟨iss, t2⟩
    cases iss with
    | none =>
      simp only [runIssued, ha]
      exact ih t2
    | some rid =>
      simp only [runIssued, ha]
      refine List.Pairwise.cons ?_ (ih t2)
      intro j hj
      have hge := runIssued_ge t2 ops j hj
      have hsp := applyOp_issued t op rid (by rw [ha])
      have h3 : t2.next_id = t.next_id + 1 := by
        have := hsp.2; rw [ha] at this; exact this
      have h1 := hsp.1
      omega

/-- C9: over every sequence of operations on a table whose stored row ids
sit below next_id, issued row ids are strictly increasing (no id is ever
issued twice, even after deletes), every issued id exceeds every initial
row id, and next_id ends strictly above every issued id. -/
theorem c9_monotonic_ids (t : Table) (ops : List Op)
    (h0 : ∀ p ∈ t.rows, p.1 < t.next_id) :
    (runIssued t ops).Pairwise (· < ·) ∧
    (∀ i ∈ runIssued t ops, i < (runTable t ops).next_id) ∧
    (∀ p ∈ t.rows, ∀ i ∈ runIssued t ops, p.1 < i) :=
  ⟨runIssued_pairwise t ops, runIssued_lt_next t ops,
    fun p hp i hi => lt_of_lt_of_le (h0 p hp) (runIssued_ge t ops i hi)⟩

/-- Witness for c9_monotonic_ids: insert, delete the row, insert again on
the one-column table; the deleted id 0 is not reused. -/
theorem c9_monotonic_ids_witness :
    (runIssued tInt [Op.ins [("a", Value.int 1)], Op.del 0,
        Op.ins [("a", Value.int 2)]]).Pairwise (· < ·) ∧
    (∀ i ∈ runIssued tInt [Op.ins [("a", Value.int 1)], Op.del 0,
        Op.ins [("a", Value.int 2)]],
      i < (runTable tInt [Op.ins [("a", Value.int 1)], Op.del 0,
        Op.ins [("a", Value.int 2)]]).next_id) ∧
    (∀ p ∈ tInt.rows, ∀ i ∈ runIssued tInt [Op.ins [("a", Value.int 1)],
        Op.del 0, Op.ins [("a", Value.int 2)]], p.1 < i) :=
  c9_monotonic_ids tInt _ (by decide)

/-- C4: saving and loading a database reproduces it up to the indexes,
which come back exactly as the load-time scan of the original rows
rebuilds them: same table names, same column schemas, same rows under the
same row ids, same next_id.  (The JSON text layer is invertible on this
data and is modelled as the identity.) -/
theorem c4_round_trip (db : List (String × Table))
    (hdb : ∀ p ∈ db, (p.2).name = p.1) :
    loadDB (saveDB db) =
      db.map (fun p =>
        (p.1, { p.2 with indexes := rebuildIndexes p.2.columns p.2.rows })) := by
  unfold loadDB saveDB
  rw [List.map_map]
  refine List.map_congr_left ?_
  intro p hp
  have hn := hdb p hp
  cases p with
  | mk n t =>
    cases t with
    | mk nm cols rows nid idxs =>
      simp only at hn
      subst hn
      rfl

/-- Witness for c4_round_trip on the two-table database db3. -/
theorem c4_round_trip_witness :
    loadDB (saveDB db3) =
      db3.map (fun p =>
        (p.1, { p.2 with indexes := rebuildIndexes p.2.columns p.2.rows })) :=
  c4_round_trip db3 (by decide)

/-- C1: the WHERE compiler substitutes the row value into the clause text
and evaluates the result as a Python expression; for the clause
priority = 2 the substituted text (for example 2 = 2) is an assignment,
a SyntaxError, so the predicate is False for every row and the query
returns no rows at all, even though a row with priority 2 is stored.
The claim says exactly that row would be returned. -/
theorem c1_code_bug :
    execSelect db1 "SELECT * FROM t WHERE priority = 2" = .ok [] ∧
    (1, [("priority", Value.int 2)]) ∈ tPr.rows :=
  ⟨rfl, by decide⟩

/-- C3: parse_select matches only the prefix SELECT star FROM name and
silently drops the rest of the statement, so the JOIN query on T2 is
executed as a plain full select on T2: both T2 rows come back unjoined,
instead of the single joined row the claim describes. -/
theorem c3_code_bug :
    execSelect db3 "SELECT * FROM T2 JOIN T1 ON T2.t1_id = T1.id" =
      .ok [(0, [("id", Value.int 10), ("t1_id", Value.int 1)]),
        (1, [("id", Value.int 11), ("t1_id", Value.int 2)])] :=
  rfl

/-- C5: a failed update corrupts the index.  On tAB, updating row 0 to
the duplicate b value 20 fails with the uniqueness error, but the
live-set discard performed while checking column a has already removed
row 0 from the bucket of a = 1 and left that empty bucket dangling:
afterwards row 0 still stores a = 1 yet the index for a maps 1 to the
empty set, violating both halves of the claimed invariant. -/
theorem c5_code_bug :
    (Table.update tAB 0 [("b", Value.int 20)]).1 =
      .error "Duplicate value for unique column b" ∧
    (Table.update tAB 0 [("b", Value.int 20)]).2.indexes =
      [("a", ⟨"a", [(Value.int 1, []), (Value.int 2, [1])]⟩),
        ("b", ⟨"b", [(Value.int 10, [0]), (Value.int 20, [1])]⟩)] ∧
    (0, [("a", Value.int 1), ("b", Value.int 10)]) ∈
      (Table.update tAB 0 [("b", Value.int 20)]).2.rows :=
  ⟨rfl, rfl, by decide⟩

/-- At a schema column, the merged row of Table.update sees the same
value whether or not the update input had its non-schema entries
stripped. -/
theorem getVal_merge_keep (t : Table) (old : Row) (u : InputRow) (c : Column)
    (hc : c ∈ t.columns) :
    getVal (mergeRow old (keepSchema t u)) c.name =
      getVal (mergeRow old u) c.name := by
  unfold getVal mergeRow
  rw [List.find?_append, List.find?_append]
  have h1 := find?_map_keyVal c.name
    (fun p => (((keepSchema t u).find? (fun q => decide (q.1 = p.1))).map
      (fun q => q.2)).getD p.2)
    (fun p => ((u.find? (fun q => decide (q.1 = p.1))).map (fun q => q.2)).getD p.2)
    (fun p hp => by dsimp only; rw [hp, find?_keep_eq t u c hc]) old
  rw [h1]
  have h2 : ((keepSchema t u).filter
        (fun q => !(old.any (fun p => decide (p.1 = q.1))))).find?
        (fun p => decide (p.1 = c.name)) =
      (u.filter (fun q => !(old.any (fun p => decide (p.1 = q.1))))).find?
        (fun p => decide (p.1 = c.name)) := by
    unfold keepSchema
    rw [List.filter_filter]
    exact find?_filter_agree c.name _ _
      (fun p hp => by simp [keep_at_schema t c hc p hp]) u
  rw [h2]

/-- An update reads its input only at schema columns and through the
stored old row: stripping the non-schema entries changes nothing about
its outcome. -/
theorem update_keep (t : Table) (rid : Nat) (u : InputRow) :
    Table.update t rid u = Table.update t rid (keepSchema t u) := by
  unfold Table.update
  rcases hf : t.rows.find? (fun p => decide (p.1 = rid)) with _ | p0
  · simp only [hf]
  · simp only [hf]
    have hval : validateRow t (mergeRow p0.2 u) (some rid) =
        validateRow t (mergeRow p0.2 (keepSchema t u)) (some rid) := by
      unfold validateRow
      exact validateCols_congr _ _ (some rid) t.columns
        (fun c hc => (getVal_merge_keep t p0.2 u c hc).symm) t.indexes []
    rw [hval]

/-- A column the update input does not mention keeps, in the merged row,
exactly the value of the old stored row. -/
theorem getVal_merge_unsupplied (old : Row) (u : InputRow) (nm : String)
    (h : u.find? (fun p => decide (p.1 = nm)) = none) :
    getVal (mergeRow old u) nm = getVal old nm := by
  unfold getVal mergeRow
  rw [List.find?_append]
  have h1 := find?_map_keyVal nm
    (fun p => ((u.find? (fun q => decide (q.1 = p.1))).map (fun q => q.2)).getD p.2)
    (fun p => p.2)
    (fun p hp => by dsimp only; rw [hp, h]; rfl) old
  rw [h1]
  have hid : (old.map (fun p => ((p.1 : String), (p.2 : Value)))) = old := by
    simp
  rw [hid]
  have h2 : (u.filter (fun q => !(old.any (fun p => decide (p.1 = q.1))))).find?
      (fun p => decide (p.1 = nm)) = none := by
    rw [List.find?_eq_none] at h ⊢
    intro x hx
    exact h x (List.mem_of_mem_filter hx)
  rw [h2]
  cases old.find? (fun p => decide (p.1 = nm)) <;> rfl

/-- On a value that already has the declared type's representation the
per-type conversion is the identity. -/
theorem convert_typed (dt : DataType) (v : Value)
    (hty : typedVal dt v = true) (hnn : v ≠ Value.null) :
    convertVal dt v = .ok v := by
  cases dt <;> cases v <;>
    simp_all [typedVal, convertVal, pyInt, pyFloat, pyStr, pyTruthy, Except.map]

/-- A successful validation stores, for every column whose input value is
non-null, exactly the converted input value. -/
theorem validateCols_ok_values (row : InputRow) (rid : Option Nat) :
    ∀ (cols : List Column) (idxs : List (String × Index)) (acc res : Row)
      (idxs' : List (String × Index)),
      validateCols row rid cols idxs acc = (.ok res, idxs') →
      ∀ c ∈ cols, ∀ w, ¬ getVal row c.name = Value.null →
        convertVal c.data_type (getVal row c.name) = .ok w →
        (c.name, w) ∈ res := by
  intro cols
  induction cols with
  | nil =>
    intro idxs acc res idxs' _ c hc
    cases hc
  | cons col cols ih =>
    intro idxs acc res idxs' h c hc w hnn hconv
    rcases List.mem_cons.mp hc with rfl | hc2
    · revert h
      simp only [validateCols]
      split
      · rename_i hx; exact absurd hx hnn
      · split
        · rename_i e hx; rw [hconv] at hx; cases hx
        · rename_i v2 hx
          rw [hconv] at hx
          injection hx with hv2
          subst hv2
          have step : ∀ (idxs2 : List (String × Index)),
              validateCols row rid cols idxs2 (acc ++ [(c.name, w)]) =
                (.ok res, idxs') →
              (c.name, w) ∈ res := by
            intro idxs2 hrec
            obtain ⟨tail, ht1, _, _⟩ := validateCols_ok_shape row rid cols idxs2
              (acc ++ [(c.name, w)]) res idxs' hrec
            rw [ht1]; simp
          split
          · split
            · split
              · split
                · intro h; exact step _ h
                · intro h; cases h
              · split
                · intro h; exact step _ h
                · intro h; cases h
            · intro h; exact step _ h
          · intro h; exact step _ h
    · revert h
      simp only [validateCols]
      split
      · split
        · intro h; cases h
        · intro h; exact ih _ _ _ _ h c hc2 w hnn hconv
      · split
        · intro h; cases h
        · split
          · split
            · split
              · split
                · intro h; exact ih _ _ _ _ h c hc2 w hnn hconv
                · intro h; cases h
              · split
                · intro h; exact ih _ _ _ _ h c hc2 w hnn hconv
                · intro h; cases h
            · intro h; exact ih _ _ _ _ h c hc2 w hnn hconv
          · intro h; exact ih _ _ _ _ h c hc2 w hnn hconv

/-- A successful update stores, under the updated row id, a row holding
exactly the schema's column names; a schema column the update input does
not mention keeps its old stored value (on the reachable states where
stored values have their declared representation). -/
theorem update_ok_shape (t : Table) (rid : Nat) (u : InputRow)
    (p0 : Nat × Row)
    (hf : t.rows.find? (fun q => decide (q.1 = rid)) = some p0)
    (hok : (Table.update t rid u).1 = .ok ()) :
    ∃ row, (rid, row) ∈ (Table.update t rid u).2.rows ∧
      row.map Prod.fst = t.columns.map Column.name ∧
      ∀ c ∈ t.columns, ∀ vOld,
        u.find? (fun q => decide (q.1 = c.name)) = none →
        rowVal p0.2 c.name = some vOld →
        typedVal c.data_type vOld = true →
        (c.name, vOld) ∈ row := by
  rcases hv : validateRow t (mergeRow p0.2 u) (some rid) with ⟨resv, idxs⟩
  cases resv with
  | error e =>
    unfold Table.update at hok
    simp [hf, hv] at hok
  | ok validated =>
    refine ⟨validated, ?_, ?_, ?_⟩
    · unfold Table.update
      simp only [hf, hv]
      refine List.mem_map.mpr ⟨p0, List.mem_of_find?_eq_some hf, ?_⟩
      have hp1 : p0.1 = rid := by
        have h2 := List.find?_some hf
        simpa using h2
      simp [hp1]
    · obtain ⟨tail, ht1, ht2, _⟩ := validateCols_ok_shape (mergeRow p0.2 u)
        (some rid) t.columns t.indexes [] validated idxs hv
      rw [ht1]; simpa using ht2
    · intro c hc vOld hnone hold hty
      have hgv : getVal p0.2 c.name = vOld := by
        unfold getVal
        unfold rowVal at hold
        rw [hold]
        rfl
      have hmv : getVal (mergeRow p0.2 u) c.name = vOld := by
        rw [getVal_merge_unsupplied p0.2 u c.name hnone]
        exact hgv
      by_cases hnull : vOld = Value.null
      · subst hnull
        obtain ⟨tail, ht1, _, ht3⟩ := validateCols_ok_shape (mergeRow p0.2 u)
          (some rid) t.columns t.indexes [] validated idxs hv
        have hm := ht3 c hc hmv
        rw [ht1]
        simpa using hm
      · have hnn2 : ¬ getVal (mergeRow p0.2 u) c.name = Value.null := by
          rw [hmv]; exact hnull
        have hcv : convertVal c.data_type (getVal (mergeRow p0.2 u) c.name) =
            .ok vOld := by
          rw [hmv]; exact convert_typed c.data_type vOld hty hnull
        exact validateCols_ok_values (mergeRow p0.2 u) (some rid) t.columns
          t.indexes [] validated idxs hv c hc vOld hnn2 hcv

/-- C10, counterexample for the update half: on tNB (columns a and b,
both nullable INTEGER, row 0 holding a 1 and b 2), the update supplying
only a succeeds, and the stored row keeps b 2 — the nullable column b
that the input did not supply is NOT stored as null, contradicting the
claim read over updates. -/
theorem c10_counterexample :
    (Table.update tNB 0 [("a", Value.int 5)]).1 = .ok () ∧
    (Table.update tNB 0 [("a", Value.int 5)]).2.rows
      = [(0, [("a", Value.int 5), ("b", Value.int 2)])] ∧
    (Table.update tNB 0 [("a", Value.int 5)]).2.rows
      ≠ [(0, [("a", Value.int 5), ("b", Value.null)])] ∧
    getVal [("a", Value.int 5)] "b" = Value.null :=
  ⟨rfl, rfl, by decide, rfl⟩

/-- C10, amended: for every insert or update, input entries whose key is
not a schema column are silently ignored (stripping them changes nothing,
so they cause no error and are not stored), and the stored row's keys are
exactly the schema's column names.  Null is stored for every nullable
column the input did not supply on INSERTS ONLY: an update instead keeps
the previously stored value of every column its input does not mention. -/
theorem c10_amended (t : Table) (r u : InputRow) (rid : Nat) :
    Table.insert t r = Table.insert t (keepSchema t r) ∧
    Table.update t rid u = Table.update t rid (keepSchema t u) ∧
    (∀ i, (Table.insert t r).1 = .ok i →
      ∃ row, (i, row) ∈ (Table.insert t r).2.rows ∧
        row.map Prod.fst = t.columns.map Column.name ∧
        ∀ c ∈ t.columns, getVal r c.name = Value.null →
          (c.name, Value.null) ∈ row) ∧
    (∀ p0, t.rows.find? (fun q => decide (q.1 = rid)) = some p0 →
      (Table.update t rid u).1 = .ok () →
      ∃ row, (rid, row) ∈ (Table.update t rid u).2.rows ∧
        row.map Prod.fst = t.columns.map Column.name ∧
        ∀ c ∈ t.columns, ∀ vOld,
          u.find? (fun q => decide (q.1 = c.name)) = none →
          rowVal p0.2 c.name = some vOld →
          typedVal c.data_type vOld = true →
          (c.name, vOld) ∈ row) :=
  ⟨insert_keep t r, update_keep t rid u,
    fun i hok => insert_ok_rowshape t r i hok,
    fun p0 hf hok => update_ok_shape t rid u p0 hf hok⟩

/-- Witness for c10_amended on tNB with an insert input and an update
input each carrying an entry under the unknown key zzz. -/
theorem c10_amended_witness :
    Table.insert tNB [("zzz", Value.int 1)] =
      Table.insert tNB (keepSchema tNB [("zzz", Value.int 1)]) ∧
    Table.update tNB 0 [("a", Value.int 5), ("zzz", Value.int 9)] =
      Table.update tNB 0
        (keepSchema tNB [("a", Value.int 5), ("zzz", Value.int 9)]) ∧
    (∀ i, (Table.insert tNB [("zzz", Value.int 1)]).1 = .ok i →
      ∃ row, (i, row) ∈ (Table.insert tNB [("zzz", Value.int 1)]).2.rows ∧
        row.map Prod.fst = tNB.columns.map Column.name ∧
        ∀ c ∈ tNB.columns, getVal [("zzz", Value.int 1)] c.name = Value.null →
          (c.name, Value.null) ∈ row) ∧
    (∀ p0, tNB.rows.find? (fun q => decide (q.1 = 0)) = some p0 →
      (Table.update tNB 0 [("a", Value.int 5), ("zzz", Value.int 9)]).1 = .ok () →
      ∃ row, (0, row) ∈
          (Table.update tNB 0 [("a", Value.int 5), ("zzz", Value.int 9)]).2.rows ∧
        row.map Prod.fst = tNB.columns.map Column.name ∧
        ∀ c ∈ tNB.columns, ∀ vOld,
          [("a", Value.int 5), ("zzz", Value.int 9)].find?
            (fun q => decide (q.1 = c.name)) = none →
          rowVal p0.2 c.name = some vOld →
          typedVal c.data_type vOld = true →
          (c.name, vOld) ∈ row) :=
  c10_amended tNB [("zzz", Value.int 1)]
    [("a", Value.int 5), ("zzz", Value.int 9)] 0

end SimpleRDBMS
